import Mathlib

/-!
# ProductionplusScanner — verification of the measurement-mapping module
and the spec-level orchestrator (state machine, resilient work queue).

Shallow embedding of `eyeson/frontend/src/utils/measurementMapping.ts`
(`src/unnamed/part_003`) together with spec-level models of the
order-lifecycle state machine (transition matrix of
`src/unnamed/part_000`) and the WAL-backed work queue (spec §4.3).

Numbers (measurement values, confidences) are embedded as `ℚ`; the
JavaScript comparisons at stake (`< 0.75`, `>= 0.9`, `<=`) agree with
exact rational arithmetic on all inputs considered.
-/

namespace Scanner

/-- EYESON measurement record (`EyesonMeasurement` in part_003). -/
structure EyesonMeasurement where
  name : String
  value : ℚ
  unit : String
  confidence : ℚ
  grade : String
  deriving DecidableEq, Repr

/-- One Pattern-Factory measurement `{value, unit, confidence}`. -/
structure PFMeasurement where
  value : ℚ
  unit : String
  confidence : ℚ
  deriving DecidableEq, Repr

/-- JavaScript `String.prototype.toLowerCase()` on the ASCII names used
by the measurement map: lower-case every character. -/
def jsToLower (s : String) : String := ⟨s.data.map Char.toLower⟩

/-- `MEASUREMENT_CODE_MAP` of part_003: EYESON field name → PF code,
including the "additional mappings for variations". -/
def MEASUREMENT_CODE_MAP : List (String × String) :=
  [("chest_girth", "Cg"), ("waist_girth", "Wg"), ("hip_girth", "Hg"),
   ("shoulder_width", "Sh"), ("arm_length", "Al"), ("back_width", "Bw"),
   ("neck_girth", "Nc"), ("bicep_girth", "Bi"), ("wrist_girth", "Wc"),
   ("inseam", "Il"), ("thigh_girth", "Th"), ("knee_girth", "Kn"),
   ("calf_girth", "Ca"),
   ("chest", "Cg"), ("waist", "Wg"), ("hip", "Hg"), ("shoulder", "Sh"),
   ("sleeve", "Al"), ("back", "Bw"), ("neck", "Nc"), ("bicep", "Bi"),
   ("wrist", "Wc"), ("inseam_length", "Il"), ("thigh", "Th"),
   ("knee", "Kn"), ("calf", "Ca")]

/-- `requiredCodes` of `transformToPatternFactory` (the 13 P0 codes). -/
def requiredCodes : List String :=
  ["Cg", "Wg", "Hg", "Sh", "Al", "Bw", "Nc", "Bi", "Wc", "Il", "Th", "Kn", "Ca"]

/-- The partial Pattern-Factory measurement object built by
`transformToPatternFactory`: an association list PF code ↦ measurement
(later assignments to the same key overwrite, as in JS). -/
abbrev PFPartial := List (String × PFMeasurement)

/-- JS object assignment `result[code] = m`: replace the entry if the key
exists, otherwise add it. -/
def setEntry (acc : PFPartial) (code : String) (m : PFMeasurement) : PFPartial :=
  if acc.any (fun p => p.1 = code) then
    acc.map (fun p => if p.1 = code then (code, m) else p)
  else
    acc ++ [(code, m)]

/-- Loop body of `transformToPatternFactory`: look the lowercased name up
in `MEASUREMENT_CODE_MAP`; on a hit store `{value, unit: 'cm', confidence}`,
otherwise skip the measurement. -/
def transformAux : List EyesonMeasurement → PFPartial → PFPartial
  | [], acc => acc
  | e :: es, acc =>
    match MEASUREMENT_CODE_MAP.lookup (jsToLower e.name) with
    | some code =>
        transformAux es (setEntry acc code ⟨e.value, "cm", e.confidence⟩)
    | none => transformAux es acc

/-- `transformToPatternFactory` of part_003 (the trailing `console.warn`
on missing required codes is a log side effect only and does not change
the returned object). -/
def transformToPatternFactory (es : List EyesonMeasurement) : PFPartial :=
  transformAux es []

/-- Lookup is case-normalising and drops unknown names: a mixed-case
known name maps to its code, an unknown name contributes nothing. -/
theorem transform_example :
    transformToPatternFactory
      [⟨"Chest_Girth", 100, "cm", mkRat 95 100, "P0"⟩,
       ⟨"mystery", 1, "cm", 1, "P0"⟩] =
      [("Cg", ⟨100, "cm", mkRat 95 100⟩)] := by decide

/-- A Pattern-Factory measurement object (`Measurements` in part_004):
13 primary fields. All fields are `Option` because runtime objects built
by `transformToPatternFactory` may lack keys (the TS code casts a
`Partial` to the full interface), which `validateMeasurements` checks
defensively with `!measurement` and `?.` accesses. -/
structure PFMeasurements where
  Cg : Option PFMeasurement
  Wg : Option PFMeasurement
  Hg : Option PFMeasurement
  Sh : Option PFMeasurement
  Al : Option PFMeasurement
  Bw : Option PFMeasurement
  Nc : Option PFMeasurement
  Bi : Option PFMeasurement
  Wc : Option PFMeasurement
  Il : Option PFMeasurement
  Th : Option PFMeasurement
  Kn : Option PFMeasurement
  Ca : Option PFMeasurement
  deriving DecidableEq, Repr

/-- Dynamic field access `measurements[code]`. -/
def getCode (m : PFMeasurements) : String → Option PFMeasurement
  | "Cg" => m.Cg
  | "Wg" => m.Wg
  | "Hg" => m.Hg
  | "Sh" => m.Sh
  | "Al" => m.Al
  | "Bw" => m.Bw
  | "Nc" => m.Nc
  | "Bi" => m.Bi
  | "Wc" => m.Wc
  | "Il" => m.Il
  | "Th" => m.Th
  | "Kn" => m.Kn
  | "Ca" => m.Ca
  | _ => none

/-- `Object.entries(measurements)`: the present fields in declaration
order. -/
def entriesPF (m : PFMeasurements) : List (String × PFMeasurement) :=
  ([("Cg", m.Cg), ("Wg", m.Wg), ("Hg", m.Hg), ("Sh", m.Sh), ("Al", m.Al),
    ("Bw", m.Bw), ("Nc", m.Nc), ("Bi", m.Bi), ("Wc", m.Wc), ("Il", m.Il),
    ("Th", m.Th), ("Kn", m.Kn), ("Ca", m.Ca)]).filterMap
    (fun p => p.2.map (fun d => (p.1, d)))

/-- The error and warning messages pushed by `validateMeasurements`,
one constructor per `push` site (the display string is determined by the
constructor and its arguments). -/
inductive ValidationMsg where
  | missingRequired (code : String)
  | lowConfidence (code : String) (confidence : ℚ)
  | chestNotGreaterThanWaist
  | hipNotGreaterThanWaist
  deriving DecidableEq, Repr

/-- `primaryCodes` of `validateMeasurements` — note it lists only six of
the thirteen P0 codes. -/
def primaryCodes : List String := ["Cg", "Wg", "Hg", "Sh", "Al", "Nc"]

/-- First loop of `validateMeasurements`: an error for every code of
`primaryCodes` with `!measurement || !measurement.value` (a present
measurement with value `0` is falsy in JS and also counts as missing). -/
def missingErrors (m : PFMeasurements) : List ValidationMsg :=
  primaryCodes.filterMap fun c =>
    match getCode m c with
    | none => some (ValidationMsg.missingRequired c)
    | some d => if d.value = 0 then some (ValidationMsg.missingRequired c) else none

/-- Second loop of `validateMeasurements`: a warning for every present
measurement with `confidence < 0.75`. -/
def confidenceWarnings (m : PFMeasurements) : List ValidationMsg :=
  (entriesPF m).filterMap fun p =>
    if p.2.confidence < mkRat 75 100 then
      some (ValidationMsg.lowConfidence p.1 p.2.confidence)
    else none

/-- Physical-plausibility block of `validateMeasurements`:
`chest && waist && chest <= waist` and `hip && waist && hip <= waist`
(a value of `0` is falsy, so the check is skipped for it). -/
def ratioWarnings (m : PFMeasurements) : List ValidationMsg :=
  (match m.Cg, m.Wg with
   | some c, some w =>
     if c.value ≠ 0 ∧ w.value ≠ 0 ∧ c.value ≤ w.value then
       [ValidationMsg.chestNotGreaterThanWaist]
     else []
   | _, _ => []) ++
  (match m.Hg, m.Wg with
   | some h, some w =>
     if h.value ≠ 0 ∧ w.value ≠ 0 ∧ h.value ≤ w.value then
       [ValidationMsg.hipNotGreaterThanWaist]
     else []
   | _, _ => [])

/-- Verdict `{valid, errors, warnings}` returned by
`validateMeasurements`. -/
structure ValidationResult where
  valid : Bool
  errors : List ValidationMsg
  warnings : List ValidationMsg
  deriving DecidableEq, Repr

/-- `validateMeasurements` of part_003: presence errors for the six
`primaryCodes`, low-confidence warnings, ratio warnings;
`valid := errors.length === 0`. -/
def validateMeasurements (m : PFMeasurements) : ValidationResult :=
  { valid := (missingErrors m).length == 0
    errors := missingErrors m
    warnings := confidenceWarnings m ++ ratioWarnings m }

/-- Title-casing applied by `transformToEyeson` when building
`codeToNameMap`: `name.replace(/_/g, ' ').replace(/\b\w/g, toUpperCase)`
— underscores become spaces and every word-initial character is
upper-cased. -/
def displayNameChars : List Char → Bool → List Char
  | [], _ => []
  | c :: cs, atStart =>
    if c = '_' then ' ' :: displayNameChars cs true
    else (if atStart then c.toUpper else c) :: displayNameChars cs false

/-- `codeToNameMap` of `transformToEyeson`: built by a `reduce` over
`MEASUREMENT_CODE_MAP`, so for codes with several names the **last**
entry wins (hence the lookup in the reversed list). -/
def codeToNameMap (code : String) : Option String :=
  (MEASUREMENT_CODE_MAP.reverse.lookup code).map
    (fun name => ⟨displayNameChars name.data true⟩)

/-- One entry pushed by `transformToEyeson` for a present measurement
`(code, data)` (the `typeof data.value === 'number'` guard always holds
in this model, where values are rationals):
`{name: codeToNameMap[code] || code, value, unit: data.unit || 'cm',
confidence: data.confidence || 0.9,
grade: data.confidence && data.confidence >= 0.9 ? 'P0' : 'P1'}`. -/
def eyesonEntry (code : String) (data : PFMeasurement) : EyesonMeasurement :=
  { name := (codeToNameMap code).getD code
    value := data.value
    unit := if data.unit = "" then "cm" else data.unit
    confidence := if data.confidence = 0 then mkRat 9 10 else data.confidence
    grade :=
      if data.confidence ≠ 0 ∧ mkRat 9 10 ≤ data.confidence then "P0" else "P1" }

/-- `transformToEyeson` of part_003. -/
def transformToEyeson (m : PFMeasurements) : List EyesonMeasurement :=
  (entriesPF m).map (fun p => eyesonEntry p.1 p.2)

/-- `DEFAULT_MEASUREMENTS` of part_003. -/
def DEFAULT_MEASUREMENTS : PFMeasurements :=
  { Cg := some ⟨mkRat 1025 10, "cm", mkRat 95 100⟩
    Wg := some ⟨88, "cm", mkRat 92 100⟩
    Hg := some ⟨mkRat 985 10, "cm", mkRat 94 100⟩
    Sh := some ⟨mkRat 452 10, "cm", mkRat 94 100⟩
    Al := some ⟨mkRat 648 10, "cm", mkRat 88 100⟩
    Bw := some ⟨mkRat 385 10, "cm", mkRat 81 100⟩
    Nc := some ⟨mkRat 394 10, "cm", mkRat 93 100⟩
    Bi := some ⟨mkRat 321 10, "cm", mkRat 85 100⟩
    Wc := some ⟨mkRat 178 10, "cm", mkRat 87 100⟩
    Il := some ⟨mkRat 824 10, "cm", mkRat 86 100⟩
    Th := some ⟨mkRat 583 10, "cm", mkRat 84 100⟩
    Kn := some ⟨mkRat 389 10, "cm", mkRat 83 100⟩
    Ca := some ⟨mkRat 372 10, "cm", mkRat 82 100⟩ }

/-- All thirteen default measurements present, in range: the verdict is
a pass with no errors or warnings. -/
theorem default_measurements_pass :
    validateMeasurements DEFAULT_MEASUREMENTS =
      { valid := true, errors := [], warnings := [] } := by decide

/-- § C1. Claim: a P0 measurement with confidence strictly below 0.90
(e.g. `Cg.confidence = 0.89`) makes the verdict a fail recorded as a
failure. The code, however, never gates on the 0.90 threshold: with all
thirteen measurements present and in range and `Cg.confidence = 0.89`,
`validateMeasurements` returns `valid = true` with no error and not even
a warning (confidence is only compared against 0.75, and then only to
warn). -/
theorem C1_p0_confidence_not_gated :
    validateMeasurements
      { DEFAULT_MEASUREMENTS with
        Cg := some ⟨mkRat 1025 10, "cm", mkRat 89 100⟩ } =
      { valid := true, errors := [], warnings := [] } := by decide

/-- § C2. Claim: absence of any of the 13 P0 codes makes the verdict
fail. The code checks presence of only six codes (`Cg Wg Hg Sh Al Nc`):
removing `Bi` (bicep girth, a P0 code) still yields `valid = true` with
no error, while removing `Nc` does fail — so the gate covers six of the
thirteen codes only. -/
theorem C2_presence_gate_covers_six_codes_only :
    validateMeasurements { DEFAULT_MEASUREMENTS with Bi := none } =
      { valid := true, errors := [], warnings := [] } ∧
    (validateMeasurements { DEFAULT_MEASUREMENTS with Nc := none }).valid
      = false := by decide

/-- § C3. Claim: a P0 value outside its documented range (e.g.
`Wg.value = 250`, documented maximum 160 cm) makes the verdict fail.
The code performs no range validation at all: with `Wg.value = 250` the
verdict is still `valid = true`; only the two ratio warnings fire, and
no failure is recorded. -/
theorem C3_out_of_range_not_failed :
    validateMeasurements
      { DEFAULT_MEASUREMENTS with Wg := some ⟨250, "cm", mkRat 95 100⟩ } =
      { valid := true, errors := []
        warnings := [ValidationMsg.chestNotGreaterThanWaist,
                     ValidationMsg.hipNotGreaterThanWaist] } := by decide

/-- § C8. For a measurement set that passes all individual per-field
checks (no errors), a violated cross-field ratio rule (chest ≤ waist, or
hip ≤ waist, both values present and nonzero) is reported in the
verdict's warnings and never in its failures, and the verdict still
passes — the code has no hard-fail configuration, a ratio violation is
always a warning. -/
theorem C8_ratio_violation_warns_not_fails (m : PFMeasurements)
    (herr : (validateMeasurements m).errors = []) :
    (validateMeasurements m).valid = true ∧
    ((∃ c w, m.Cg = some c ∧ m.Wg = some w ∧
        c.value ≠ 0 ∧ w.value ≠ 0 ∧ c.value ≤ w.value) →
      ValidationMsg.chestNotGreaterThanWaist ∈ (validateMeasurements m).warnings ∧
      ValidationMsg.chestNotGreaterThanWaist ∉ (validateMeasurements m).errors) ∧
    ((∃ h w, m.Hg = some h ∧ m.Wg = some w ∧
        h.value ≠ 0 ∧ w.value ≠ 0 ∧ h.value ≤ w.value) →
      ValidationMsg.hipNotGreaterThanWaist ∈ (validateMeasurements m).warnings ∧
      ValidationMsg.hipNotGreaterThanWaist ∉ (validateMeasurements m).errors) := by
  have herr' : missingErrors m = [] := herr
  refine ⟨?_, ?_, ?_⟩
  · simp [validateMeasurements, herr']
  · rintro ⟨c, w, hc, hw, h1, h2, h3⟩
    constructor
    · show _ ∈ confidenceWarnings m ++ ratioWarnings m
      apply List.mem_append_right
      simp [ratioWarnings, hc, hw, h1, h2, h3]
    · show _ ∉ missingErrors m
      simp [herr']
  · rintro ⟨h, w, hh, hw, h1, h2, h3⟩
    constructor
    · show _ ∈ confidenceWarnings m ++ ratioWarnings m
      apply List.mem_append_right
      simp [ratioWarnings, hh, hw, h1, h2, h3]
    · show _ ∉ missingErrors m
      simp [herr']

/-- Concrete input for the C8 witness: all six checked codes present,
chest (80) ≤ waist (88) and hip (85) ≤ waist (88). -/
def ratioViolating : PFMeasurements :=
  { DEFAULT_MEASUREMENTS with
    Cg := some ⟨80, "cm", mkRat 95 100⟩
    Hg := some ⟨85, "cm", mkRat 94 100⟩ }

/-- Witness for C8 at `ratioViolating`. -/
theorem C8_ratio_witness :
    (validateMeasurements ratioViolating).valid = true ∧
    ValidationMsg.chestNotGreaterThanWaist ∈
      (validateMeasurements ratioViolating).warnings ∧
    ValidationMsg.hipNotGreaterThanWaist ∈
      (validateMeasurements ratioViolating).warnings :=
  ⟨(C8_ratio_violation_warns_not_fails ratioViolating (by decide)).1,
   ((C8_ratio_violation_warns_not_fails ratioViolating (by decide)).2.1
     ⟨⟨80, "cm", mkRat 95 100⟩, ⟨88, "cm", mkRat 92 100⟩,
      by decide, by decide, by decide, by decide, by decide⟩).1,
   ((C8_ratio_violation_warns_not_fails ratioViolating (by decide)).2.2
     ⟨⟨85, "cm", mkRat 94 100⟩, ⟨88, "cm", mkRat 92 100⟩,
      by decide, by decide, by decide, by decide, by decide⟩).1⟩

/-- A measurement object holding only a chest girth with the given
confidence, used to exhibit the confidence dependence of the display
grade. -/
def onlyCg (conf : ℚ) : PFMeasurements :=
  ⟨some ⟨100, "cm", conf⟩, none, none, none, none, none, none,
   none, none, none, none, none, none⟩

/-- § C9 counterexample. Claim: the P0/P1 grade assigned by the EYESON
display conversion is static metadata of the code, independent of the
measurement's confidence. False: the same code `Cg` with the same value
is graded `P0` at confidence 0.95 but `P1` at confidence 0.5. -/
theorem C9_grade_not_static_counterexample :
    (transformToEyeson (onlyCg (mkRat 95 100))).map EyesonMeasurement.grade
      = ["P0"] ∧
    (transformToEyeson (onlyCg (mkRat 5 10))).map EyesonMeasurement.grade
      = ["P1"] := by decide

/-- § C9 amended: the grade assigned by `transformToEyeson` is determined
solely by the measurement's confidence — `P0` exactly when the confidence
is nonzero and at least 0.90, `P1` otherwise — and is therefore the same
for any two measurements with equal confidence, whatever their codes and
values. -/
theorem C9_grade_determined_by_confidence :
    (∀ (m : PFMeasurements) (e : EyesonMeasurement),
      e ∈ transformToEyeson m →
      ∃ p, p ∈ entriesPF m ∧ e = eyesonEntry p.1 p.2 ∧
        e.grade = (if p.2.confidence ≠ 0 ∧ mkRat 9 10 ≤ p.2.confidence
                   then "P0" else "P1")) ∧
    (∀ (c₁ c₂ : String) (d₁ d₂ : PFMeasurement),
      d₁.confidence = d₂.confidence →
      (eyesonEntry c₁ d₁).grade = (eyesonEntry c₂ d₂).grade) := by
  constructor
  · intro m e he
    obtain ⟨p, hp, rfl⟩ := List.mem_map.mp he
    exact ⟨p, hp, rfl, rfl⟩
  · intro c₁ c₂ d₁ d₂ hconf
    simp [eyesonEntry, hconf]

/-- Witness for C9's amended theorem at a concrete measurement object
and at two concrete entries with equal confidence. -/
theorem C9_grade_witness :
    (∃ p, p ∈ entriesPF (onlyCg (mkRat 95 100)) ∧
      eyesonEntry "Cg" ⟨100, "cm", mkRat 95 100⟩ = eyesonEntry p.1 p.2 ∧
      (eyesonEntry "Cg" ⟨100, "cm", mkRat 95 100⟩).grade =
        (if p.2.confidence ≠ 0 ∧ mkRat 9 10 ≤ p.2.confidence
         then "P0" else "P1")) ∧
    (eyesonEntry "Cg" ⟨100, "cm", mkRat 95 100⟩).grade =
      (eyesonEntry "Wg" ⟨88, "cm", mkRat 95 100⟩).grade :=
  ⟨C9_grade_determined_by_confidence.1 (onlyCg (mkRat 95 100))
      (eyesonEntry "Cg" ⟨100, "cm", mkRat 95 100⟩) (by decide),
   C9_grade_determined_by_confidence.2 "Cg" "Wg"
      ⟨100, "cm", mkRat 95 100⟩ ⟨88, "cm", mkRat 95 100⟩ rfl⟩

/-- Membership after a JS object assignment: an entry of
`setEntry acc c x` is the new binding or an old one. -/
theorem setEntry_mem {acc : PFPartial} {c c' : String}
    {x x' : PFMeasurement} (h : (c, x) ∈ setEntry acc c' x') :
    (c = c' ∧ x = x') ∨ (c, x) ∈ acc := by
  unfold setEntry at h
  split at h
  · obtain ⟨p, hp, hfp⟩ := List.mem_map.mp h
    by_cases hc : p.1 = c'
    · rw [if_pos hc] at hfp
      exact Or.inl ⟨(Prod.mk.injEq .. ▸ hfp).1.symm,
        (Prod.mk.injEq .. ▸ hfp).2.symm⟩
    · rw [if_neg hc] at hfp
      exact Or.inr (hfp ▸ hp)
  · rcases List.mem_append.mp h with hin | hin
    · exact Or.inr hin
    · rcases List.mem_singleton.mp hin with heq
      exact Or.inl ⟨(Prod.mk.injEq .. ▸ heq).1, (Prod.mk.injEq .. ▸ heq).2⟩

/-- A successful lookup in an association list returns one of its
values. -/
theorem lookup_val_mem {α β : Type} [BEq α] [LawfulBEq α]
    (l : List (α × β)) (P : β → Prop) (h : ∀ p ∈ l, P p.2) :
    ∀ a b, l.lookup a = some b → P b := by
  induction l with
  | nil => intro a b hb; simp [List.lookup] at hb
  | cons p l ih =>
    intro a b hb
    rw [List.lookup] at hb
    split at hb
    · cases hb
      exact h p (List.mem_cons_self ..)
    · exact ih (fun q hq => h q (List.mem_cons_of_mem _ hq)) a b hb

/-- Every code produced by `MEASUREMENT_CODE_MAP` is one of the 13
required P0 codes. -/
theorem code_map_val_mem (a b : String)
    (h : MEASUREMENT_CODE_MAP.lookup a = some b) : b ∈ requiredCodes :=
  lookup_val_mem MEASUREMENT_CODE_MAP (· ∈ requiredCodes) (by decide) a b h

/-- Every entry of the accumulator-passing loop of
`transformToPatternFactory` is inherited from the accumulator or built
from an input measurement whose lowercased name maps to its code. -/
theorem transformAux_mem :
    ∀ (es : List EyesonMeasurement) (acc : PFPartial)
      (c : String) (x : PFMeasurement), (c, x) ∈ transformAux es acc →
      (c, x) ∈ acc ∨
      ∃ e ∈ es, MEASUREMENT_CODE_MAP.lookup (jsToLower e.name) = some c ∧
        x = ⟨e.value, "cm", e.confidence⟩ := by
  intro es
  induction es with
  | nil => intro acc c x h; exact Or.inl h
  | cons e es ih =>
    intro acc c x h
    rw [transformAux] at h
    split at h
    case h_1 code hcode =>
      rcases ih _ c x h with hacc | ⟨e', he', hl, hx⟩
      · rcases setEntry_mem hacc with ⟨rfl, rfl⟩ | hold
        · exact Or.inr ⟨e, List.mem_cons_self .., hcode, rfl⟩
        · exact Or.inl hold
      · exact Or.inr ⟨e', List.mem_cons_of_mem _ he', hl, hx⟩
    case h_2 hcode =>
      rcases ih _ c x h with hacc | ⟨e', he', hl, hx⟩
      · exact Or.inl hacc
      · exact Or.inr ⟨e', List.mem_cons_of_mem _ he', hl, hx⟩

/-- An input measurement whose lowercased name misses the code map is
skipped without affecting the loop state. -/
theorem transformAux_drop (e : EyesonMeasurement)
    (hnone : MEASUREMENT_CODE_MAP.lookup (jsToLower e.name) = none) :
    ∀ (es₁ es₂ : List EyesonMeasurement) (acc : PFPartial),
      transformAux (es₁ ++ e :: es₂) acc = transformAux (es₁ ++ es₂) acc := by
  intro es₁
  induction es₁ with
  | nil => intro es₂ acc; simp [transformAux, hnone]
  | cons e₁ es₁ ih =>
    intro es₂ acc
    rw [List.cons_append, List.cons_append, transformAux, transformAux]
    split
    · exact ih ..
    · exact ih ..

/-- § C10. `transformToPatternFactory` performs no unit conversion and
no rounding: every entry of its output has unit `'cm'` and carries some
input measurement's value and confidence unchanged, its key is one of
the 13 known P0 codes, and an input measurement whose name is not in
the measurement code map is silently dropped from the output. -/
theorem C10_transform_faithful :
    (∀ (es : List EyesonMeasurement) (c : String) (x : PFMeasurement),
      (c, x) ∈ transformToPatternFactory es →
      x.unit = "cm" ∧ c ∈ requiredCodes ∧
      ∃ e ∈ es, MEASUREMENT_CODE_MAP.lookup (jsToLower e.name) = some c ∧
        x.value = e.value ∧ x.confidence = e.confidence) ∧
    (∀ (es₁ es₂ : List EyesonMeasurement) (e : EyesonMeasurement),
      MEASUREMENT_CODE_MAP.lookup (jsToLower e.name) = none →
      transformToPatternFactory (es₁ ++ e :: es₂) =
        transformToPatternFactory (es₁ ++ es₂)) := by
  constructor
  · intro es c x h
    rcases transformAux_mem es [] c x h with hnil | ⟨e, he, hl, rfl⟩
    · cases hnil
    · exact ⟨rfl, code_map_val_mem _ _ hl, e, he, hl, rfl, rfl⟩
  · intro es₁ es₂ e hnone
    exact transformAux_drop e hnone es₁ es₂ []

/-- Concrete inputs for the C10 witness. -/
def esKnown : List EyesonMeasurement :=
  [⟨"Chest_Girth", 100, "cm", mkRat 95 100, "P0"⟩]

/-- An input measurement whose name is not in the code map. -/
def esUnknown : EyesonMeasurement := ⟨"mystery", 1, "cm", 1, "P0"⟩

/-- Witness for C10 at a concrete input list. -/
theorem C10_transform_witness :
    ((⟨100, "cm", mkRat 95 100⟩ : PFMeasurement).unit = "cm" ∧
      "Cg" ∈ requiredCodes ∧
      ∃ e ∈ esKnown,
        MEASUREMENT_CODE_MAP.lookup (jsToLower e.name) = some "Cg" ∧
        (⟨100, "cm", mkRat 95 100⟩ : PFMeasurement).value = e.value ∧
        (⟨100, "cm", mkRat 95 100⟩ : PFMeasurement).confidence
          = e.confidence) ∧
    transformToPatternFactory (esKnown ++ esUnknown :: []) =
      transformToPatternFactory (esKnown ++ []) :=
  ⟨C10_transform_faithful.1 esKnown "Cg" ⟨100, "cm", mkRat 95 100⟩
     (by decide),
   C10_transform_faithful.2 esKnown [] esUnknown (by decide)⟩

/-! ## Order-lifecycle state machine

Modelled from the spec: the repository contains no implementation of the
State Machine Engine (spec §4.1) — only the state-machine document
(`src/unnamed/part_000`) with its transition matrix. The states and the
matrix below are transcribed from that document; the engine semantics
(per-order state, `transition(order_id, event)`, idempotent replay,
event-log append) follows spec §4.1. -/

/-- The 22 primary states S01–S22 plus the substates S04a (validation)
and S06a (queue wait) of `src/unnamed/part_000`. -/
inductive OState where
  | S01 | S02 | S03 | S04 | S04a | S05 | S06 | S06a | S07 | S08
  | S09 | S10 | S11 | S12 | S13 | S14 | S15 | S16 | S17 | S18
  | S19 | S20 | S21 | S22
  deriving DecidableEq, Repr

open OState in
/-- Transition matrix of part_000 (§ State Transitions): rows
`(from, to, trigger)`. -/
def transitionMatrix : List (OState × OState × String) :=
  [(S01, S02, "POST /orders"),
   (S02, S03, "EYESON Scan"),
   (S02, S04, "Manual Entry"),
   (S03, S04, "Validation Pass"),
   (S04, S04a, "Start Validation"),
   (S04a, S05, "Validation OK"),
   (S04a, S04, "Validation Fail"),
   (S05, S06, "Submit to Queue"),
   (S06, S06a, "Queue Full"),
   (S06a, S06, "Retry"),
   (S06a, S07, "Cutter Ready"),
   (S06, S07, "Direct Cut"),
   (S07, S08, "Fabric Ready"),
   (S08, S09, "QA Scheduled"),
   (S09, S10, "QA Pass"),
   (S09, S11, "QA Fail"),
   (S10, S11, "Start Sewing"),
   (S11, S12, "Assembly"),
   (S12, S13, "Finishing"),
   (S13, S14, "Pressed"),
   (S14, S15, "Pickup"),
   (S14, S16, "Ship"),
   (S14, S18, "Alterations"),
   (S16, S17, "Delivered"),
   (S18, S19, "Complete"),
   (S14, S20, "Cancel"),
   (S20, S21, "Refund"),
   (S21, S22, "Closed")]

/-- Modelled from the spec: `StateTransitionRecord` (§3) — immutable
record appended to the event log on every transition (timestamp and
metadata omitted; they carry no transition semantics). -/
structure TransitionRecord where
  order_id : String
  from_state : OState
  to_state : OState
  trigger : String
  deriving DecidableEq, Repr

/-- Modelled from the spec: per-order engine state — current state,
events already applied successfully (for §4.1 idempotency), and the
order's slice of the event log. -/
structure OrderState where
  state : OState
  applied : List String
  history : List TransitionRecord
  deriving DecidableEq, Repr

/-- The engine's order store, keyed by `order_id`. -/
abbrev Store := List (String × OrderState)

/-- Engine error kinds of §4.1 (`ConcurrentModification` concerns
concurrency outside this sequential model). -/
inductive TransitionError where
  | IllegalTransition
  | OrderNotFound
  deriving DecidableEq, Repr

/-- The matrix row, if any, defined for the current state and event. -/
def findEdge (s : OState) (ev : String) : Option OState :=
  ((transitionMatrix.filter (fun r => r.1 = s ∧ r.2.2 = ev)).head?).map
    (fun r => r.2.1)

/-- Replace the state of order `oid` in the store. -/
def updateStore : Store → String → OrderState → Store
  | [], _, _ => []
  | p :: ps, oid, os =>
    if p.1 = oid then (oid, os) :: ps else p :: updateStore ps oid os

/-- Modelled from the spec: `transition(order_id, event) →
Result<NewState, TransitionError>` of §4.1 — `OrderNotFound` for an
unknown order; a no-op returning the current state when the same
`(order_id, event)` pair has already succeeded (idempotency, §4.1);
`IllegalTransition` when the matrix defines no edge; otherwise advance
and append exactly one transition record. -/
def transition (σ : Store) (oid ev : String) :
    Except TransitionError (OState × Store) :=
  match σ.lookup oid with
  | none => Except.error TransitionError.OrderNotFound
  | some os =>
    if ev ∈ os.applied then Except.ok (os.state, σ)
    else
      match findEdge os.state ev with
      | none => Except.error TransitionError.IllegalTransition
      | some t =>
        Except.ok (t, updateStore σ oid
          { state := t
            applied := ev :: os.applied
            history := os.history ++ [⟨oid, os.state, t, ev⟩] })

/-- Modelled from the spec: order creation (§3 lifecycle) — a fresh
order enters at the initial state S01 with an empty history; an existing
`order_id` is left untouched. -/
def createOrder (σ : Store) (oid : String) : Store :=
  match σ.lookup oid with
  | some _ => σ
  | none => σ ++ [(oid, ⟨OState.S01, [], []⟩)]

/-- The stores reachable by the engine: start empty, create orders,
apply successful transitions. -/
inductive Reachable : Store → Prop where
  | empty : Reachable []
  | create : ∀ σ oid, Reachable σ → Reachable (createOrder σ oid)
  | step : ∀ σ oid ev s σ', Reachable σ →
      transition σ oid ev = Except.ok (s, σ') → Reachable σ'

/-- A history is a legal walk from `s`: each record leaves the state the
previous one reached, along an edge of the transition matrix. -/
def legalFrom (s : OState) : List TransitionRecord → Bool
  | [] => true
  | r :: rs =>
    r.from_state = s &&
    transitionMatrix.any (fun t => t.1 = r.from_state ∧ t.2.1 = r.to_state) &&
    legalFrom r.to_state rs

/-- The state a walk ends in. -/
def endState : OState → List TransitionRecord → OState
  | s, [] => s
  | _, r :: rs => endState r.to_state rs

theorem legalFrom_append (h₁ : List TransitionRecord) :
    ∀ (s : OState) (h₂ : List TransitionRecord),
      legalFrom s (h₁ ++ h₂) =
        (legalFrom s h₁ && legalFrom (endState s h₁) h₂) := by
  induction h₁ with
  | nil => intro s h₂; simp [legalFrom, endState]
  | cons r rs ih =>
    intro s h₂
    simp [legalFrom, endState, ih, Bool.and_assoc]

theorem endState_append (h₁ : List TransitionRecord) :
    ∀ (s : OState) (h₂ : List TransitionRecord),
      endState s (h₁ ++ h₂) = endState (endState s h₁) h₂ := by
  induction h₁ with
  | nil => intro s h₂; simp [endState]
  | cons r rs ih => intro s h₂; simp [endState, ih]

/-- A successful `findEdge` names an edge of the transition matrix. -/
theorem findEdge_edge {s : OState} {ev : String} {t : OState}
    (h : findEdge s ev = some t) :
    transitionMatrix.any (fun r => r.1 = s ∧ r.2.1 = t) = true := by
  unfold findEdge at h
  obtain ⟨r, hr, rfl⟩ := Option.map_eq_some'.mp h
  cases hfil : (transitionMatrix.filter (fun r => r.1 = s ∧ r.2.2 = ev)) with
  | nil => rw [hfil] at hr; cases hr
  | cons a l =>
    rw [hfil] at hr
    cases hr
    have hmem : r ∈ transitionMatrix.filter (fun r => r.1 = s ∧ r.2.2 = ev) :=
      hfil ▸ List.mem_cons_self ..
    have hpred := List.of_mem_filter hmem
    have hin := List.mem_of_mem_filter hmem
    refine List.any_eq_true.mpr ⟨r, hin, ?_⟩
    have hps : r.1 = s := (of_decide_eq_true hpred).1
    simp [hps]

theorem lookup_updateStore_self {oid : String} {os₀ os : OrderState} :
    ∀ σ : Store, σ.lookup oid = some os₀ →
      (updateStore σ oid os).lookup oid = some os := by
  intro σ
  induction σ with
  | nil => intro h; simp [List.lookup] at h
  | cons p ps ih =>
    intro h
    by_cases hp : p.1 = oid
    · simp [updateStore, hp, List.lookup]
    · have hb : (oid == p.1) = false := beq_eq_false_iff_ne.mpr (Ne.symm hp)
      simp only [List.lookup, hb] at h
      simp only [updateStore, if_neg hp, List.lookup, hb]
      exact ih h

theorem lookup_updateStore_ne {oid oid' : String} {os : OrderState}
    (hne : oid' ≠ oid) :
    ∀ σ : Store, (updateStore σ oid os).lookup oid' = σ.lookup oid' := by
  intro σ
  induction σ with
  | nil => simp [updateStore]
  | cons p ps ih =>
    by_cases hp : p.1 = oid
    · have hb : (oid' == oid) = false := beq_eq_false_iff_ne.mpr hne
      have hb2 : (oid' == p.1) = false :=
        beq_eq_false_iff_ne.mpr (hp ▸ hne)
      simp only [updateStore, if_pos hp, List.lookup, hb, hb2]
    · simp only [updateStore, if_neg hp, List.lookup]
      cases hq : (oid' == p.1) <;> simp [ih]

theorem lookup_append_single {k : String} {p : String × OrderState} :
    ∀ σ : Store, (σ ++ [p]).lookup k =
      match σ.lookup k with
      | some v => some v
      | none => List.lookup k [p] := by
  intro σ
  induction σ with
  | nil => simp [List.lookup]
  | cons q qs ih =>
    rw [List.cons_append, List.lookup, List.lookup]
    cases hq : (k == q.1) <;> simp [ih]

/-- § C4. Invariant of every reachable engine store: each order's
event-log history is a legal walk of the §4.1 state graph — the first
record leaves the initial state S01, every record leaves the state the
previous one reached along an edge of the transition matrix, and the
walk ends in the order's current state. -/
theorem C4_history_legal_walk (σ : Store) (hreach : Reachable σ) :
    ∀ oid os, σ.lookup oid = some os →
      legalFrom OState.S01 os.history = true ∧
      endState OState.S01 os.history = os.state := by
  induction hreach with
  | empty => intro oid os h; simp [List.lookup] at h
  | create σ oid' hσ ih =>
    intro oid os h
    unfold createOrder at h
    cases hl : σ.lookup oid' with
    | some v => rw [hl] at h; exact ih oid os h
    | none =>
      rw [hl] at h
      rw [lookup_append_single] at h
      cases hl2 : σ.lookup oid with
      | some v =>
        rw [hl2] at h
        dsimp only at h
        cases h
        exact ih oid _ hl2
      | none =>
        rw [hl2] at h
        dsimp only at h
        by_cases hko : oid = oid'
        · subst hko
          simp [List.lookup] at h
          subst h
          exact ⟨rfl, rfl⟩
        · simp [List.lookup, beq_eq_false_iff_ne.mpr hko] at h
  | step σ oid' ev s σ' hσ htr ih =>
    intro oid os h
    unfold transition at htr
    cases hl : σ.lookup oid' with
    | none => rw [hl] at htr; cases htr
    | some os₀ =>
      rw [hl] at htr
      dsimp only at htr
      by_cases happ : ev ∈ os₀.applied
      · rw [if_pos happ] at htr
        cases htr
        exact ih oid os h
      · rw [if_neg happ] at htr
        cases hfe : findEdge os₀.state ev with
        | none => rw [hfe] at htr; cases htr
        | some t =>
          rw [hfe] at htr
          cases htr
          by_cases hoid : oid = oid'
          · subst hoid
            rw [lookup_updateStore_self σ hl] at h
            cases h
            obtain ⟨hwalk, hend⟩ := ih oid os₀ hl
            constructor
            · rw [legalFrom_append, hwalk, hend]
              simp only [legalFrom, Bool.true_and, Bool.and_true]
              obtain ⟨r, hr, hpred⟩ :=
                List.any_eq_true.mp (findEdge_edge hfe)
              obtain ⟨a, b, c⟩ := r
              obtain ⟨h1, h2⟩ := of_decide_eq_true hpred
              dsimp at h1 h2
              subst h1
              subst h2
              simp
              exact ⟨c, hr⟩
            · rw [endState_append, hend]
              rfl
          · rw [lookup_updateStore_ne hoid σ] at h
            exact ih oid os h

/-- The store after creating order `"A"` and applying
`POST /orders` (S01 → S02). -/
def storeA1 : Store :=
  [("A", ⟨OState.S02, ["POST /orders"],
    [⟨"A", OState.S01, OState.S02, "POST /orders"⟩]⟩)]

/-- Witness for C4 at a concrete two-step reachable store. -/
theorem C4_walk_witness :
    legalFrom OState.S01
      [⟨"A", OState.S01, OState.S02, "POST /orders"⟩] = true ∧
    endState OState.S01
      [⟨"A", OState.S01, OState.S02, "POST /orders"⟩] = OState.S02 :=
  C4_history_legal_walk storeA1
    (Reachable.step (createOrder [] "A") "A" "POST /orders" OState.S02 storeA1
      (Reachable.create [] "A" Reachable.empty) (by rfl))
    "A" ⟨OState.S02, ["POST /orders"],
      [⟨"A", OState.S01, OState.S02, "POST /orders"⟩]⟩ (by rfl)

/-- § C7. Idempotent transitions: once `transition(order_id, event)` has
succeeded, re-applying the same pair is a no-op returning the same
resulting state with the store unchanged (so no second record is
appended); and the first successful application appended exactly one
transition record to the order's history. -/
theorem C7_transition_idempotent (σ : Store) (oid ev : String) (s : OState)
    (σ' : Store) (h : transition σ oid ev = Except.ok (s, σ')) :
    transition σ' oid ev = Except.ok (s, σ') ∧
    (∀ os, σ.lookup oid = some os → ev ∉ os.applied →
      σ'.lookup oid = some ⟨s, ev :: os.applied,
        os.history ++ [⟨oid, os.state, s, ev⟩]⟩) := by
  unfold transition at h
  cases hl : σ.lookup oid with
  | none => rw [hl] at h; cases h
  | some os₀ =>
    rw [hl] at h
    dsimp only at h
    by_cases happ : ev ∈ os₀.applied
    · rw [if_pos happ] at h
      cases h
      constructor
      · unfold transition
        rw [hl]
        dsimp only
        rw [if_pos happ]
      · intro os hos hnot
        cases hos
        exact absurd happ hnot
    · rw [if_neg happ] at h
      cases hfe : findEdge os₀.state ev with
      | none => rw [hfe] at h; cases h
      | some t =>
        rw [hfe] at h
        cases h
        have hself := @lookup_updateStore_self oid os₀
          ⟨s, ev :: os₀.applied,
            os₀.history ++ [⟨oid, os₀.state, s, ev⟩]⟩ σ hl
        constructor
        · unfold transition
          rw [hself]
          dsimp only
          rw [if_pos (List.mem_cons_self ..)]
        · intro os hos hnot
          cases hos
          exact hself

/-- Witness for C7: the first applied event of `storeA1` replays as a
no-op and appended exactly one record. -/
theorem C7_idempotent_witness :
    transition storeA1 "A" "POST /orders" =
      Except.ok (OState.S02, storeA1) ∧
    storeA1.lookup "A" = some ⟨OState.S02, ["POST /orders"],
      [⟨"A", OState.S01, OState.S02, "POST /orders"⟩]⟩ :=
  ⟨(C7_transition_idempotent (createOrder [] "A") "A" "POST /orders"
      OState.S02 storeA1 (by rfl)).1,
   (C7_transition_idempotent (createOrder [] "A") "A" "POST /orders"
      OState.S02 storeA1 (by rfl)).2 ⟨OState.S01, [], []⟩ (by rfl)
      (by simp)⟩

/-! ## Resilient work queue

Modelled from the spec: the repository contains no implementation of the
Resilient Work Queue (spec §4.3) — the WAL operations, the replay-based
rebuild and the priority/FIFO dequeue rule below follow §4.3 and §3
(`WALEntry`, `QueueJob`). -/

/-- WAL operations of §4.3: `ENQUEUE`, `DEQUEUE`, `ACK`,
`RETRY (attempt)`, `DEAD_LETTER`. -/
inductive WalOp where
  | ENQUEUE
  | DEQUEUE
  | ACK
  | RETRY (attempt : Nat)
  | DEAD_LETTER
  deriving DecidableEq, Repr

/-- Modelled from the spec: a `WALEntry` (§3) — the sequence number is
the entry's position in the log list, and the payload checksum plays no
role in replay. -/
structure WALEntry where
  jobId : Nat
  op : WalOp
  deriving DecidableEq, Repr

/-- Job status of §3: `pending`, `in_flight`, `done`, `dead_letter`. -/
inductive JobStatus where
  | pending
  | inFlight
  | done
  | deadLetter
  deriving DecidableEq, Repr

/-- The status a WAL operation leaves its job in (§4.3 steps 1–4). -/
def statusOfOp : WalOp → JobStatus
  | WalOp.ENQUEUE => JobStatus.pending
  | WalOp.DEQUEUE => JobStatus.inFlight
  | WalOp.ACK => JobStatus.done
  | WalOp.RETRY _ => JobStatus.pending
  | WalOp.DEAD_LETTER => JobStatus.deadLetter

/-- Set a job's status in the rebuilt queue state (insert or replace). -/
def setJob : List (Nat × JobStatus) → Nat → JobStatus → List (Nat × JobStatus)
  | [], j, st => [(j, st)]
  | p :: ps, j, st => if p.1 = j then (j, st) :: ps else p :: setJob ps j st

/-- Replay one WAL entry into the rebuilt queue state. -/
def applyWal (m : List (Nat × JobStatus)) (e : WALEntry) :
    List (Nat × JobStatus) :=
  setJob m e.jobId (statusOfOp e.op)

/-- Modelled from the spec: startup replay (§4.3 step 5) — fold the WAL
in sequence order into a job-status map. -/
def replayWal (w : List WALEntry) : List (Nat × JobStatus) :=
  w.foldl applyWal []

/-- The §4.3 recovery rule applied after replay: a job left `in_flight`
(its last operation was a `DEQUEUE` with no following `ACK` or
`DEAD_LETTER`) is treated as `pending` again. -/
def recoverStatus (st : JobStatus) : JobStatus :=
  if st = JobStatus.inFlight then JobStatus.pending else st

/-- Modelled from the spec: the queue state rebuilt on startup — replay
the WAL, then re-pend every in-flight job. -/
def rebuildQueue (w : List WALEntry) : List (Nat × JobStatus) :=
  (replayWal w).map (fun p => (p.1, recoverStatus p.2))

/-- The last operation recorded in the WAL for job `j`, if any. -/
def lastOpOn (j : Nat) (w : List WALEntry) : Option WalOp :=
  (w.reverse.find? (fun e => e.jobId == j)).map (fun e => e.op)

theorem setJob_lookup_self {j : Nat} {st : JobStatus} :
    ∀ m : List (Nat × JobStatus), (setJob m j st).lookup j = some st := by
  intro m
  induction m with
  | nil => simp [setJob, List.lookup]
  | cons p ps ih =>
    by_cases hp : p.1 = j
    · simp [setJob, hp, List.lookup]
    · have hb : (j == p.1) = false := beq_eq_false_iff_ne.mpr (Ne.symm hp)
      simp only [setJob, if_neg hp, List.lookup, hb]
      exact ih

theorem setJob_lookup_ne {j j' : Nat} {st : JobStatus} (hne : j' ≠ j) :
    ∀ m : List (Nat × JobStatus),
      (setJob m j st).lookup j' = m.lookup j' := by
  intro m
  induction m with
  | nil => simp [setJob, List.lookup, beq_eq_false_iff_ne.mpr hne]
  | cons p ps ih =>
    by_cases hp : p.1 = j
    · have hb : (j' == j) = false := beq_eq_false_iff_ne.mpr hne
      have hb2 : (j' == p.1) = false := beq_eq_false_iff_ne.mpr (hp ▸ hne)
      simp only [setJob, if_pos hp, List.lookup, hb, hb2]
    · simp only [setJob, if_neg hp, List.lookup]
      cases hq : (j' == p.1) <;> simp [ih]

theorem lastOpOn_cons (j : Nat) (e : WALEntry) (w : List WALEntry) :
    lastOpOn j (e :: w) =
      match lastOpOn j w with
      | some op => some op
      | none => if e.jobId = j then some e.op else none := by
  unfold lastOpOn
  rw [List.reverse_cons, List.find?_append]
  cases hfw : w.reverse.find? (fun e => e.jobId == j) with
  | some a => simp [hfw]
  | none =>
    simp only [hfw, Option.none_or]
    by_cases hj : e.jobId = j
    · simp [List.find?, hj]
    · simp [List.find?, beq_eq_false_iff_ne.mpr hj, hj]

/-- The status a job holds after replay is decided by its last recorded
operation; jobs never mentioned keep their status from the initial map. -/
theorem replay_lookup (j : Nat) :
    ∀ (w : List WALEntry) (m : List (Nat × JobStatus)),
      (w.foldl applyWal m).lookup j =
        match lastOpOn j w with
        | some op => some (statusOfOp op)
        | none => m.lookup j := by
  intro w
  induction w with
  | nil => intro m; simp [lastOpOn]
  | cons e w ih =>
    intro m
    rw [List.foldl_cons, ih, lastOpOn_cons]
    cases hlast : lastOpOn j w with
    | some op => rfl
    | none =>
      dsimp only
      by_cases hj : e.jobId = j
      · rw [if_pos hj]
        dsimp only
        unfold applyWal
        rw [hj]
        exact setJob_lookup_self m
      · rw [if_neg hj]
        exact setJob_lookup_ne (fun hh => hj hh.symm) m

theorem lookup_map_recover (j : Nat) :
    ∀ m : List (Nat × JobStatus),
      (m.map (fun p => (p.1, recoverStatus p.2))).lookup j =
        (m.lookup j).map recoverStatus := by
  intro m
  induction m with
  | nil => simp [List.lookup]
  | cons p ps ih =>
    rw [List.map_cons, List.lookup, List.lookup]
    cases hq : (j == p.1) <;> simp [ih]

/-- A job mentioned anywhere in the WAL has a last recorded operation. -/
theorem lastOpOn_isSome {j : Nat} {w : List WALEntry}
    (h : ∃ e ∈ w, e.jobId = j) : ∃ op, lastOpOn j w = some op := by
  obtain ⟨e, he, hj⟩ := h
  have hrev : ∃ x ∈ w.reverse, (fun e : WALEntry => e.jobId == j) x = true :=
    ⟨e, List.mem_reverse.mpr he, beq_iff_eq.mpr hj⟩
  obtain ⟨a, ha⟩ := Option.isSome_iff_exists.mp
    (List.find?_isSome.mpr hrev)
  exact ⟨a.op, by simp [lastOpOn, ha]⟩

/-- § C5. Replaying the WAL in sequence order restores every job
according to its last recorded operation: a job whose last recorded
operation is `DEQUEUE` (no `ACK`/`DEAD_LETTER` follows it) is pending
again in the rebuilt queue state, and every job recorded anywhere in
the WAL is present in the rebuilt queue state — never silently
dropped. -/
theorem C5_wal_replay_restores (w : List WALEntry) (j : Nat) :
    (∀ op, lastOpOn j w = some op →
      (rebuildQueue w).lookup j = some (recoverStatus (statusOfOp op))) ∧
    (lastOpOn j w = some WalOp.DEQUEUE →
      (rebuildQueue w).lookup j = some JobStatus.pending) ∧
    ((∃ e ∈ w, e.jobId = j) → (rebuildQueue w).lookup j ≠ none) := by
  have hbase : ∀ op, lastOpOn j w = some op →
      (rebuildQueue w).lookup j = some (recoverStatus (statusOfOp op)) := by
    intro op hop
    unfold rebuildQueue replayWal
    rw [lookup_map_recover, replay_lookup, hop]
    rfl
  refine ⟨hbase, ?_, ?_⟩
  · intro hop
    exact hbase WalOp.DEQUEUE hop
  · intro hmem
    obtain ⟨op, hop⟩ := lastOpOn_isSome hmem
    rw [hbase op hop]
    exact Option.some_ne_none _

/-- Witness for C5: WAL `[ENQUEUE 1, DEQUEUE 1]` — the crash left job 1
in flight, and the rebuilt queue state holds it `pending` again. -/
theorem C5_wal_witness :
    lastOpOn 1 [⟨1, WalOp.ENQUEUE⟩, ⟨1, WalOp.DEQUEUE⟩] =
      some WalOp.DEQUEUE ∧
    (rebuildQueue [⟨1, WalOp.ENQUEUE⟩, ⟨1, WalOp.DEQUEUE⟩]).lookup 1 =
      some JobStatus.pending :=
  ⟨by decide,
   (C5_wal_replay_restores [⟨1, WalOp.ENQUEUE⟩, ⟨1, WalOp.DEQUEUE⟩] 1).2.1
     (by decide)⟩

/-- Job priorities of §3: `rush > high > normal > low`. -/
inductive Priority where
  | rush
  | high
  | normal
  | low
  deriving DecidableEq, Repr

/-- Priority rank — lower rank dequeues first. -/
def rank : Priority → Nat
  | Priority.rush => 0
  | Priority.high => 1
  | Priority.normal => 2
  | Priority.low => 3

/-- Modelled from the spec: a pending `QueueJob` (§3) reduced to the two
fields that decide dequeue order — the enqueue sequence number and the
priority (payload, order id and attempt count play no role in
ordering). -/
structure QueueJob where
  seq : Nat
  priority : Priority
  deriving DecidableEq, Repr

/-- Strict dequeue-before order: higher priority first, enqueue sequence
number as the tie-break within a priority bucket (§4.3 Ordering). -/
def keyLt (a b : QueueJob) : Bool :=
  decide (rank a.priority < rank b.priority) ||
  (decide (rank a.priority = rank b.priority) && decide (a.seq < b.seq))

/-- The reflexive dequeue order. -/
def keyLe (a b : QueueJob) : Prop :=
  rank a.priority < rank b.priority ∨
  (rank a.priority = rank b.priority ∧ a.seq ≤ b.seq)

/-- The job a worker dequeues: the pending job with the highest priority
and, within that bucket, the smallest enqueue sequence number. -/
def selectMin (j : QueueJob) (js : List QueueJob) : QueueJob :=
  js.foldl (fun acc x => if keyLt x acc then x else acc) j

/-- Drain loop with explicit fuel (the fuel is the number of pending
jobs, so it never runs out): repeatedly dequeue the highest-priority
pending job. -/
def drainFuel : Nat → List QueueJob → List QueueJob
  | 0, _ => []
  | _ + 1, [] => []
  | n + 1, j :: js =>
    selectMin j js :: drainFuel n ((j :: js).erase (selectMin j js))

/-- Modelled from the spec: drain the queue by repeated dequeue until
empty. -/
def drain (l : List QueueJob) : List QueueJob := drainFuel l.length l

/-- Jobs created by enqueueing the given priorities in order: the
enqueue sequence number is the arrival index. -/
def enqueueSeq (ps : List Priority) : List QueueJob :=
  ((List.range ps.length).zip ps).map (fun p => ⟨p.1, p.2⟩)

theorem keyLe_refl (a : QueueJob) : keyLe a a :=
  Or.inr ⟨rfl, Nat.le_refl _⟩

theorem keyLe_of_lt {a b : QueueJob} (h : keyLt a b = true) : keyLe a b := by
  unfold keyLt at h
  rcases Bool.or_eq_true_iff.mp h with h1 | h2
  · exact Or.inl (of_decide_eq_true h1)
  · obtain ⟨he, hs⟩ := Bool.and_eq_true_iff.mp h2
    exact Or.inr ⟨of_decide_eq_true he, Nat.le_of_lt (of_decide_eq_true hs)⟩

theorem keyLe_of_not_lt {a b : QueueJob} (h : keyLt a b = false) :
    keyLe b a := by
  unfold keyLt at h
  obtain ⟨h1, h2⟩ := Bool.or_eq_false_iff.mp h
  have hnlt : ¬ rank a.priority < rank b.priority := of_decide_eq_false h1
  rcases Nat.lt_trichotomy (rank b.priority) (rank a.priority) with hlt | heq | hgt
  · exact Or.inl hlt
  · refine Or.inr ⟨heq, ?_⟩
    rcases Bool.and_eq_false_iff.mp h2 with he | hs
    · exact absurd heq.symm (of_decide_eq_false he)
    · exact Nat.le_of_not_lt (of_decide_eq_false hs)
  · exact absurd hgt hnlt

theorem keyLe_trans {a b c : QueueJob} (hab : keyLe a b) (hbc : keyLe b c) :
    keyLe a c := by
  rcases hab with h1 | ⟨h1, h1s⟩ <;> rcases hbc with h2 | ⟨h2, h2s⟩
  · exact Or.inl (Nat.lt_trans h1 h2)
  · exact Or.inl (h2 ▸ h1)
  · exact Or.inl (h1 ▸ h2)
  · exact Or.inr ⟨h1.trans h2, Nat.le_trans h1s h2s⟩

theorem selectMin_mem : ∀ (js : List QueueJob) (j : QueueJob),
    selectMin j js ∈ j :: js := by
  intro js
  induction js with
  | nil => intro j; exact List.mem_singleton.mpr rfl
  | cons x js ih =>
    intro j
    unfold selectMin
    rw [List.foldl_cons]
    by_cases hx : keyLt x j = true
    · rw [if_pos hx]
      rcases List.mem_cons.mp (ih x) with heq | hmem
      · rw [show (js.foldl (fun acc y => if keyLt y acc then y else acc) x)
            = x from heq]
        exact List.mem_cons_of_mem _ (List.mem_cons_self ..)
      · exact List.mem_cons_of_mem _ (List.mem_cons_of_mem _ hmem)
    · rw [if_neg hx]
      rcases List.mem_cons.mp (ih j) with heq | hmem
      · rw [show (js.foldl (fun acc y => if keyLt y acc then y else acc) j)
            = j from heq]
        exact List.mem_cons_self ..
      · exact List.mem_cons_of_mem _ (List.mem_cons_of_mem _ hmem)

theorem selectMin_le : ∀ (js : List QueueJob) (j x : QueueJob),
    x ∈ j :: js → keyLe (selectMin j js) x := by
  intro js
  induction js with
  | nil =>
    intro j x hx
    rw [List.mem_singleton.mp hx]
    exact keyLe_refl j
  | cons y js ih =>
    intro j x hx
    unfold selectMin
    rw [List.foldl_cons]
    by_cases hy : keyLt y j = true
    · rw [if_pos hy]
      rcases List.mem_cons.mp hx with heq | hmem
      · rw [heq]
        exact keyLe_trans (ih y y (List.mem_cons_self ..)) (keyLe_of_lt hy)
      · rcases List.mem_cons.mp hmem with heq | hmem2
        · rw [heq]
          exact ih y y (List.mem_cons_self ..)
        · exact ih y x (List.mem_cons_of_mem _ hmem2)
    · rw [if_neg hy]
      rcases List.mem_cons.mp hx with heq | hmem
      · rw [heq]
        exact ih j j (List.mem_cons_self ..)
      · rcases List.mem_cons.mp hmem with heq | hmem2
        · rw [heq]
          exact keyLe_trans (ih j j (List.mem_cons_self ..))
            (keyLe_of_not_lt (Bool.eq_false_iff.mpr hy))
        · exact ih j x (List.mem_cons_of_mem _ hmem2)

theorem drainFuel_perm : ∀ (n : Nat) (l : List QueueJob),
    l.length ≤ n → (drainFuel n l).Perm l := by
  intro n
  induction n with
  | zero =>
    intro l hl
    rw [List.eq_nil_of_length_eq_zero (Nat.le_zero.mp hl)]
    exact List.Perm.refl _
  | succ n ih =>
    intro l hl
    cases l with
    | nil => exact List.Perm.refl _
    | cons j js =>
      rw [drainFuel]
      have hmem := selectMin_mem js j
      have hlen : ((j :: js).erase (selectMin j js)).length ≤ n := by
        rw [List.length_erase_of_mem hmem]
        simpa using Nat.le_of_succ_le_succ hl
      exact ((ih _ hlen).cons _).trans (List.perm_cons_erase hmem).symm

theorem drainFuel_sorted : ∀ (n : Nat) (l : List QueueJob),
    l.length ≤ n → (drainFuel n l).Pairwise keyLe := by
  intro n
  induction n with
  | zero => intro l hl; exact List.Pairwise.nil
  | succ n ih =>
    intro l hl
    cases l with
    | nil => exact List.Pairwise.nil
    | cons j js =>
      rw [drainFuel]
      have hmem := selectMin_mem js j
      have hlen : ((j :: js).erase (selectMin j js)).length ≤ n := by
        rw [List.length_erase_of_mem hmem]
        simpa using Nat.le_of_succ_le_succ hl
      refine List.Pairwise.cons ?_ (ih _ hlen)
      intro x hx
      have hx2 : x ∈ (j :: js).erase (selectMin j js) :=
        ((drainFuel_perm n _ hlen).mem_iff).mp hx
      exact selectMin_le js j x (List.mem_of_mem_erase hx2)

/-- § C6. The work queue drains in strict priority order
(`rush > high > normal > low`) with FIFO by enqueue sequence number
within a priority bucket: the drained sequence is a permutation of the
pending jobs sorted by the dequeue order; in particular, jobs enqueued
in order `[normal, rush, low, high]` drain in order
`[rush, high, normal, low]`. -/
theorem C6_priority_fifo_order :
    (∀ l : List QueueJob, (drain l).Perm l ∧ (drain l).Pairwise keyLe) ∧
    drain (enqueueSeq
        [Priority.normal, Priority.rush, Priority.low, Priority.high]) =
      [⟨1, Priority.rush⟩, ⟨3, Priority.high⟩,
       ⟨0, Priority.normal⟩, ⟨2, Priority.low⟩] :=
  ⟨fun l => ⟨drainFuel_perm l.length l (Nat.le_refl _),
             drainFuel_sorted l.length l (Nat.le_refl _)⟩,
   by decide⟩

end Scanner
